import Mathlib

/-!
Verification development for the HierarchicalAgentTeams front-end stream
consumer (frontend `App.vue`, embedded in the repository README).  The
definitions below are a shallow embedding of the JavaScript in
`fetchStreamData`, `handleSubmit`, `updateAgentFromMessage` and
`updateAgentStatus`, together with the `filteredMessages` view of
`ChatDisplay.vue`.  JavaScript objects become Lean structures; the shared
reactive refs (`messages`, `loading`, `error`, `currentActiveAgent`,
`currentMainMessageIndex`, `agentTeam`) become the fields of `AppState`.
JavaScript object identity is modelled by tagging every freshly allocated
message object with a serial number `objId` drawn from a counter
`nextObjId` carried in the state: every object literal evaluated by the
source (`{...currentMessage, message: ...}`, the object produced by
`JSON.parse`, the `userMessage` literal) allocates a fresh serial.
-/

/-- One element of the `subtasks` array of a decoded wire event. -/
structure Subtask where
  title : String
  requirement : String
deriving DecidableEq, Repr

/-- The `current_task` payload of a decoded wire event. -/
structure CurrentTask where
  title : String
deriving DecidableEq, Repr

/-- A decoded wire event, the result of `JSON.parse` on one `data:` line.
`type`, `node` and `message` are the required wire fields (spec section 6);
`agent`, `delta`, `timestamp`, `subtasks` and `current_task` are optional
(`none` models an absent JavaScript property). -/
structure StreamEvent where
  type : String
  node : String
  agent : Option String
  message : String
  delta : Option Bool
  timestamp : Option String
  subtasks : Option (List Subtask)
  current_task : Option CurrentTask
deriving DecidableEq, Repr

/-- An element of the `messages` array: the same shape as a decoded event
(entries pushed by the code are the parsed objects themselves, or spreads
of them, or the `userMessage` literal which has no `node`), plus the
object-identity serial `objId`. -/
structure Msg where
  objId : Nat
  type : String
  node : Option String
  agent : Option String
  message : String
  delta : Option Bool
  timestamp : Option String
  subtasks : Option (List Subtask)
  current_task : Option CurrentTask
deriving DecidableEq, Repr

/-- The message object stored when an event object itself is pushed onto
`messages` (e.g. `messages.value.push(parsedData)`); `id` is the fresh
object serial allocated for the parsed object. -/
def Msg.ofEvent (id : Nat) (e : StreamEvent) : Msg :=
  { objId := id
    type := e.type
    node := some e.node
    agent := e.agent
    message := e.message
    delta := e.delta
    timestamp := e.timestamp
    subtasks := e.subtasks
    current_task := e.current_task }

/-- One entry of the `agentTeam` roster. -/
structure Agent where
  name : String
  avatar : String
  status : String
  active : Bool
  role : String
  layer : Nat
deriving DecidableEq, Repr

/-- The shared reactive state of `App.vue`. -/
structure AppState where
  messages : List Msg
  loading : Bool
  error : String
  currentActiveAgent : String
  currentMainMessageIndex : Int
  agentTeam : List Agent
  nextObjId : Nat
deriving DecidableEq, Repr

/-- JavaScript `s.endsWith(c)` for a single-character suffix `c`: true iff
the last character of `s` is `c`. -/
def endsWithChar (s : String) (c : Char) : Bool :=
  s.data.getLast? == some c

/-- JavaScript `String.prototype.trim`: drop leading and trailing
whitespace. -/
def jsTrim (s : String) : String :=
  String.mk (((s.data.dropWhile Char.isWhitespace).reverse.dropWhile
    Char.isWhitespace).reverse)

/-- JavaScript `o || d` for an optional string `o`: the default `d` is
taken when the property is absent or the empty string (both falsy). -/
def jsOr (o : Option String) (d : String) : String :=
  match o with
  | some s => if s == "" then d else s
  | none => d

/-- JavaScript array indexing `l[i]` with a possibly negative index:
out-of-range access yields `undefined`, modelled as `none`. -/
def jsIndex (l : List Msg) (i : Int) : Option Msg :=
  if i < 0 then none else l[i.toNat]?

/-- JavaScript `l.splice(i, 1, m)` for an in-range index: replace the
element at `i` by `m`. -/
def jsSetIndex (l : List Msg) (i : Int) (m : Msg) : List Msg :=
  if i < 0 then l else l.set i.toNat m

/-- The initial `agentTeam` roster literal of `App.vue`. -/
def initialAgentTeam : List Agent :=
  [ { name := "主管"
      avatar := "👨‍💼"
      status := "idle"
      active := false
      role := "supervisor"
      layer := 1 },
    { name := "研究团队"
      avatar := "👥"
      status := "idle"
      active := false
      role := "research_team"
      layer := 2 },
    { name := "文档写作团队"
      avatar := "📝"
      status := "idle"
      active := false
      role := "document_writing_team"
      layer := 2 },
    { name := "搜索器"
      avatar := "🔍"
      status := "idle"
      active := false
      role := "searcher"
      layer := 3 },
    { name := "网页爬虫"
      avatar := "🕷️"
      status := "idle"
      active := false
      role := "web_crawler"
      layer := 3 },
    { name := "写作者"
      avatar := "✍️"
      status := "idle"
      active := false
      role := "writer"
      layer := 3 },
    { name := "记事本"
      avatar := "📓"
      status := "idle"
      active := false
      role := "notebook"
      layer := 3 },
    { name := "图表生成器"
      avatar := "📊"
      status := "idle"
      active := false
      role := "chart_generator"
      layer := 3 } ]

/-- The state of the page before any submission. -/
def initialState : AppState :=
  { messages := []
    loading := false
    error := ""
    currentActiveAgent := ""
    currentMainMessageIndex := -1
    agentTeam := initialAgentTeam
    nextObjId := 0 }

/-- `updateAgentStatus(status)` of `App.vue`: set every roster agent's
`status`, with `active` true exactly when the status is `"active"`. -/
def updateAgentStatus (status : String) (team : List Agent) : List Agent :=
  team.map fun a => { a with status := status, active := status == "active" }

/-- Mutation of the first roster agent with the given name (the object
returned by `agentTeam.find`, which JavaScript then mutates in place). -/
def updateFirstAgent (name : String) (f : Agent → Agent) :
    List Agent → List Agent
  | [] => []
  | a :: rest =>
      if a.name == name then f a :: rest
      else a :: updateFirstAgent name f rest

/-- `updateAgentFromMessage(message)` of `App.vue` (README lines 597-627). -/
def updateAgentFromMessage (e : StreamEvent) (st : AppState) : AppState :=
  let agentName := jsOr e.agent "系统"
  match st.agentTeam.find? (fun a => a.name == agentName) with
  | some _ =>
      if e.type == "status" then
        { st with
          agentTeam := updateFirstAgent agentName
            (fun a => { a with status := "active", active := true })
            st.agentTeam
          currentActiveAgent := agentName }
      else if e.type == "result" || e.type == "final" then
        let st := { st with
          agentTeam := updateFirstAgent agentName
            (fun a => { a with status := "completed", active := false })
            st.agentTeam }
        if e.type == "final" then { st with currentActiveAgent := "" } else st
      else if e.type == "error" then
        { st with
          agentTeam := updateFirstAgent agentName
            (fun a => { a with status := "idle", active := false })
            st.agentTeam
          currentActiveAgent := "" }
      else st
  | none =>
      if e.type == "end" then
        { st with
          agentTeam := st.agentTeam.map
            (fun a => { a with status := "idle", active := false })
          currentActiveAgent := "" }
      else st

/-- The `if (parsedData.node === 'supervisor')` dispatch of
`fetchStreamData` (README lines 462-561): per-kind transcript mutation.
Every new object literal allocates a fresh `objId`. -/
def handleSupervisorMessage (e : StreamEvent) (st : AppState) : AppState :=
  if e.type == "thinking" then
    if st.currentMainMessageIndex == -1 then
      let ms := st.messages ++ [Msg.ofEvent st.nextObjId e]
      { st with
        messages := ms
        nextObjId := st.nextObjId + 1
        currentMainMessageIndex := (ms.length : Int) - 1 }
    else
      let index := st.currentMainMessageIndex
      match jsIndex st.messages index with
      | some currentMessage =>
          let separator :=
            if endsWithChar currentMessage.message '\n' then "" else "\n"
          let newMessage := { currentMessage with
            message := currentMessage.message ++ separator ++ e.message
            objId := st.nextObjId }
          { st with
            messages := jsSetIndex st.messages index newMessage
            nextObjId := st.nextObjId + 1 }
      | none => st
  else if e.type == "result" || e.type == "final" then
    if st.currentMainMessageIndex != -1 then
      let index := st.currentMainMessageIndex
      match jsIndex st.messages index with
      | some currentMessage =>
          let separator :=
            if endsWithChar currentMessage.message '\n' then "" else "\n\n"
          let newMessage := { currentMessage with
            message := currentMessage.message ++ separator ++ e.message
            objId := st.nextObjId }
          { st with
            messages := jsSetIndex st.messages index newMessage
            nextObjId := st.nextObjId + 1 }
      | none => st
    else
      let ms := st.messages ++ [Msg.ofEvent st.nextObjId e]
      { st with
        messages := ms
        nextObjId := st.nextObjId + 1
        currentMainMessageIndex := (ms.length : Int) - 1 }
  else if e.type == "error" then
    if st.currentMainMessageIndex != -1 then
      let index := st.currentMainMessageIndex
      match jsIndex st.messages index with
      | some currentMessage =>
          let separator :=
            if endsWithChar currentMessage.message '\n' then "" else "\n\n"
          let newMessage := { currentMessage with
            message := currentMessage.message ++ separator ++ "❌ " ++ e.message
            objId := st.nextObjId }
          { st with
            messages := jsSetIndex st.messages index newMessage
            nextObjId := st.nextObjId + 1 }
      | none => st
    else
      let ms := st.messages ++ [Msg.ofEvent st.nextObjId e]
      { st with
        messages := ms
        nextObjId := st.nextObjId + 1
        currentMainMessageIndex := (ms.length : Int) - 1 }
  else if e.type == "status" then
    if st.currentMainMessageIndex != -1 then
      let index := st.currentMainMessageIndex
      match jsIndex st.messages index with
      | some currentMessage =>
          let separator :=
            if endsWithChar currentMessage.message '\n' then "" else "\n"
          let newMessage := { currentMessage with
            message := currentMessage.message ++ separator ++ e.message
            objId := st.nextObjId }
          { st with
            messages := jsSetIndex st.messages index newMessage
            nextObjId := st.nextObjId + 1 }
      | none => st
    else
      let ms := st.messages ++ [Msg.ofEvent st.nextObjId e]
      { st with
        messages := ms
        nextObjId := st.nextObjId + 1
        currentMainMessageIndex := (ms.length : Int) - 1 }
  else if e.type == "connection" || e.type == "end" then
    { st with
      messages := st.messages ++ [Msg.ofEvent st.nextObjId e]
      nextObjId := st.nextObjId + 1 }
  else st

/-- Processing of one successfully parsed event in the body of
`fetchStreamData`'s read loop (README lines 462-575): the supervisor-only
transcript dispatch, then `updateAgentFromMessage`, then the
end-of-run handling for `end`/`final` (stop loading, reset every agent to
idle, reset the main message index).  Scrolling and logging have no effect
on this state. -/
def processParsedData (e : StreamEvent) (st : AppState) : AppState :=
  let st := if e.node == "supervisor" then handleSupervisorMessage e st else st
  let st := updateAgentFromMessage e st
  if e.type == "end" || e.type == "final" then
    { st with
      loading := false
      agentTeam := updateAgentStatus "idle" st.agentTeam
      currentMainMessageIndex := -1 }
  else st

/-- `handleSubmit(task)` of `App.vue` (README lines 376-401) followed by
the entry of `fetchStreamData` (which sets `loading` again): clear the
error, replace the transcript by the single user message, reset the main
message index, start loading and mark the whole roster active.  `ts` is
the wall-clock timestamp string produced by `new Date().toISOString()`. -/
def handleSubmit (task ts : String) (st : AppState) : AppState :=
  let userMessage : Msg :=
    { objId := st.nextObjId
      type := "user"
      node := none
      agent := some "用户"
      message := task
      delta := none
      timestamp := some ts
      subtasks := none
      current_task := none }
  { st with
    error := ""
    messages := [userMessage]
    currentMainMessageIndex := -1
    loading := true
    agentTeam := updateAgentStatus "active" st.agentTeam
    nextObjId := st.nextObjId + 1 }

/-- `filteredMessages` of `ChatDisplay.vue`: the rendered transcript hides
messages of type `user`. -/
def filteredMessages (msgs : List Msg) : List Msg :=
  msgs.filter (fun m => m.type != "user")

/-- A scalar JSON value of the wire protocol. -/
inductive JVal where
  | str (s : String)
  | bool (b : Bool)
  | null
deriving DecidableEq, Repr

/-- Parse the body of a JSON string literal (the opening quote already
consumed), returning the decoded characters and the rest of the input.
Handles the escapes occurring in the wire protocol. -/
def parseJsonStringAux : List Char → Option (List Char × List Char)
  | [] => none
  | '"' :: rest => some ([], rest)
  | '\\' :: c :: rest => do
      let ec ←
        match c with
        | 'n' => some '\n'
        | 'r' => some '\r'
        | 't' => some '\t'
        | '\\' => some '\\'
        | '/' => some '/'
        | '"' => some '"'
        | _ => none
      let (s, r) ← parseJsonStringAux rest
      some (ec :: s, r)
  | c :: rest => do
      let (s, r) ← parseJsonStringAux rest
      some (c :: s, r)

/-- Skip JSON whitespace. -/
def skipJsonWs (cs : List Char) : List Char :=
  cs.dropWhile Char.isWhitespace

/-- Parse one scalar JSON value: a string, `true`, `false` or `null`.
Numbers, arrays and nested objects are outside the modelled subset and
fail the parse. -/
def parseJsonValue : List Char → Option (JVal × List Char)
  | '"' :: rest => do
      let (s, r) ← parseJsonStringAux rest
      some (JVal.str (String.mk s), r)
  | 't' :: 'r' :: 'u' :: 'e' :: rest => some (JVal.bool true, rest)
  | 'f' :: 'a' :: 'l' :: 's' :: 'e' :: rest => some (JVal.bool false, rest)
  | 'n' :: 'u' :: 'l' :: 'l' :: rest => some (JVal.null, rest)
  | _ => none

/-- Parse the members of a flat JSON object, positioned after `\x7b` or
after a separating comma.  `fuel` bounds the recursion by the input
length. -/
def parseJsonMembers (fuel : Nat) (cs : List Char) :
    Option (List (String × JVal) × List Char) :=
  match fuel, skipJsonWs cs with
  | _, '\x7d' :: closeRest => some ([], closeRest)
  | fuel + 1, '"' :: keyRest => do
      let (key, afterKey) ← parseJsonStringAux keyRest
      let afterColon ←
        match skipJsonWs afterKey with
        | ':' :: colonRest => some (skipJsonWs colonRest)
        | _ => none
      let (v, afterVal) ← parseJsonValue afterColon
      match skipJsonWs afterVal with
      | ',' :: commaRest => do
          let (tailPairs, outRest) ← parseJsonMembers fuel commaRest
          some ((String.mk key, v) :: tailPairs, outRest)
      | '\x7d' :: closeRest => some ([(String.mk key, v)], closeRest)
      | _ => none
  | _, _ => none

/-- Parse a complete flat JSON object with scalar values, requiring the
whole input to be consumed. -/
def parseFlatJsonObject (s : String) : Option (List (String × JVal)) :=
  match skipJsonWs s.data with
  | '\x7b' :: rest => do
      let (ps, r) ← parseJsonMembers (s.data.length + 1) rest
      if skipJsonWs r = [] then some ps else none
  | _ => none

/-- The decoding performed by `JSON.parse` followed by the field accesses
of `fetchStreamData`, modelled on the flat scalar subset of the wire
protocol of spec section 6: `type`, `node` and `message` must be present
as strings (they are required wire fields), `agent`, `delta` and
`timestamp` are optional; an input outside this subset is treated as a
parse failure, so the frame is skipped. -/
def parseStreamEvent (s : String) : Option StreamEvent := do
  let pairs ← parseFlatJsonObject s
  match pairs.lookup "type", pairs.lookup "node", pairs.lookup "message" with
  | some (JVal.str t), some (JVal.str n), some (JVal.str msg) =>
      let agent := match pairs.lookup "agent" with
        | some (JVal.str a) => some a
        | _ => none
      let delta := match pairs.lookup "delta" with
        | some (JVal.bool b) => some b
        | _ => none
      let ts := match pairs.lookup "timestamp" with
        | some (JVal.str v) => some v
        | _ => none
      some { type := t, node := n, agent := agent, message := msg
             delta := delta, timestamp := ts, subtasks := none
             current_task := none }
  | _, _, _ => none

/-- JavaScript `line.startsWith(p)`. -/
def jsStartsWith (line p : String) : Bool :=
  p.data.isPrefixOf line.data

/-- Processing of one decoded line by the body of `fetchStreamData`'s read
loop (README lines 448-579): non-blank lines starting with the `data: `
prefix have the prefix sliced off and trimmed; a payload whose trimmed
text does not end in `\x7d` is skipped (`continue`) before any parse; a
payload that fails to parse is skipped by the `catch`; otherwise the
parsed event is processed. -/
def processLine (line : String) (st : AppState) : AppState :=
  if jsTrim line != "" && jsStartsWith line "data: " then
    let jsonData := jsTrim (String.mk (line.data.drop 6))
    if !endsWithChar jsonData '\x7d' then st
    else
      match parseStreamEvent jsonData with
      | some parsedData => processParsedData parsedData st
      | none => st
  else st

/-- An atomic step of the single-threaded browser event loop, as far as
this state is concerned: either the user submits a task, or the read loop
of some in-flight `fetchStreamData` call processes one decoded line.  The
source attaches no run identity to a line and `handleSubmit` never aborts
a previous reader (no `AbortController` exists and `onUnmounted` is
empty), so a line is processed by the same `processLine` regardless of
whether it was delivered by the current run's reader or by the
still-open reader of a superseded run. -/
inductive UiAction where
  | submit (task ts : String)
  | streamLine (line : String)
deriving DecidableEq, Repr

/-- Execute one event-loop step. -/
def stepUi (st : AppState) (a : UiAction) : AppState :=
  match a with
  | UiAction.submit task ts => handleSubmit task ts st
  | UiAction.streamLine line => processLine line st

/-- Execute a sequence of event-loop steps from the initial page state. -/
def runUi (acts : List UiAction) : AppState :=
  acts.foldl stepUi initialState

/-- The single-newline separator policy of the `thinking` branch, as a
function on the accumulated text: append the fragment, inserting a
newline only when the text does not already end in one. -/
def appendThink (t m : String) : String :=
  t ++ (if endsWithChar t '\n' then "" else "\n") ++ m

/-- Fragments joined by single newlines (the property vocabulary of spec
section 8). -/
def joinNl : List String → String
  | [] => ""
  | [s] => s
  | s :: rest => s ++ "\n" ++ joinNl rest

/-- A fragment stripped of its trailing newline, when it has one. -/
def fragCore (f : String) : String :=
  if endsWithChar f '\n' then String.mk f.data.dropLast else f

/-- The trailing newline of a fragment, when it has one. -/
def tailOpt (f : String) : String :=
  cond (endsWithChar f '\n') "\n" ""

/-- A well-formed non-delta text fragment: other than an optional trailing
newline it is nonempty and newline-free. -/
def fragOk (f : String) : Prop :=
  (fragCore f).data ≠ [] ∧ '\n' ∉ (fragCore f).data

theorem strData_inj {a b : String} (h : a.data = b.data) : a = b := by
  cases a
  cases b
  exact congrArg String.mk h

theorem strData_append (a b : String) : (a ++ b).data = a.data ++ b.data := rfl

theorem strAppend_assoc (a b c : String) : a ++ b ++ c = a ++ (b ++ c) := by
  apply strData_inj
  simp [strData_append]

theorem strAppend_empty (a : String) : a ++ "" = a := by
  apply strData_inj
  simp [strData_append]

theorem endsWithChar_append (a b : String) (c : Char) (hb : b.data ≠ []) :
    endsWithChar (a ++ b) c = endsWithChar b c := by
  unfold endsWithChar
  rw [strData_append, List.getLast?_append_of_ne_nil _ hb]

theorem nlFree_not_endsWith (s : String) (h1 : s.data ≠ [])
    (h2 : '\n' ∉ s.data) : endsWithChar s '\n' = false := by
  unfold endsWithChar
  rw [List.getLast?_eq_getLast_of_ne_nil h1]
  have hm : s.data.getLast h1 ∈ s.data := List.getLast_mem h1
  have : s.data.getLast h1 ≠ '\n' := fun he => h2 (he ▸ hm)
  simp [this]

theorem fragCore_append_tailOpt (f : String) : fragCore f ++ tailOpt f = f := by
  unfold fragCore tailOpt
  by_cases h : endsWithChar f '\n' = true
  · rw [h]
    apply strData_inj
    rw [strData_append]
    show f.data.dropLast ++ ['\n'] = f.data
    apply List.dropLast_append_getLast?
    unfold endsWithChar at h
    simpa using h
  · rw [Bool.not_eq_true] at h
    rw [h]
    simp [strAppend_empty]

theorem joinNl_concat (cs : List String) (c : String) (h : cs ≠ []) :
    joinNl (cs ++ [c]) = joinNl cs ++ "\n" ++ c := by
  induction cs with
  | nil => exact absurd rfl h
  | cons x tl ih =>
      cases tl with
      | nil => rfl
      | cons y tl2 =>
          show joinNl (x :: ((y :: tl2) ++ [c])) = _
          have hne : (y :: tl2) ≠ [] := by simp
          calc joinNl (x :: ((y :: tl2) ++ [c]))
              = x ++ "\n" ++ joinNl ((y :: tl2) ++ [c]) := by
                cases tl2 <;> rfl
            _ = x ++ "\n" ++ (joinNl (y :: tl2) ++ "\n" ++ c) := by rw [ih hne]
            _ = joinNl (x :: y :: tl2) ++ "\n" ++ c := by
                show _ = x ++ "\n" ++ joinNl (y :: tl2) ++ "\n" ++ c
                simp [strAppend_assoc]

theorem joinNl_getLast_data (cs : List String) (lc : String)
    (h : cs.getLast? = some lc) (hlc : lc.data ≠ []) :
    (joinNl cs).data.getLast? = lc.data.getLast? := by
  induction cs with
  | nil => simp at h
  | cons x tl ih =>
      cases tl with
      | nil =>
          simp at h
          subst h
          rfl
      | cons y tl2 =>
          rw [List.getLast?_cons_cons] at h
          have hj := ih h
          have hne2 : (joinNl (y :: tl2)).data ≠ [] := by
            intro hnil
            rw [hnil, List.getLast?_eq_getLast_of_ne_nil hlc] at hj
            simp at hj
          show ((x ++ "\n" ++ joinNl (y :: tl2))).data.getLast? = _
          rw [strData_append, List.getLast?_append_of_ne_nil _ hne2, hj]

theorem appendThink_step (cs : List String) (lc f : String) (tb : Bool)
    (hcs : cs.getLast? = some lc) (hlc : lc.data ≠ []) (hnl : '\n' ∉ lc.data) :
    appendThink (joinNl cs ++ cond tb "\n" "") f
      = joinNl (cs ++ [fragCore f]) ++ tailOpt f := by
  have hcne : cs ≠ [] := by
    intro h
    rw [h] at hcs
    simp at hcs
  have hends : endsWithChar (joinNl cs ++ cond tb "\n" "") '\n' = tb := by
    cases tb with
    | true =>
        show endsWithChar (joinNl cs ++ "\n") '\n' = true
        rw [endsWithChar_append _ _ _ (by simp : ("\n" : String).data ≠ [])]
        rfl
    | false =>
        show endsWithChar (joinNl cs ++ "") '\n' = false
        rw [strAppend_empty]
        show ((joinNl cs).data.getLast? == some '\n') = false
        rw [joinNl_getLast_data cs lc hcs hlc]
        have := nlFree_not_endsWith lc hlc hnl
        exact this
  unfold appendThink
  rw [hends]
  have hmid : joinNl cs ++ cond tb "\n" "" ++ (if tb = true then "" else "\n")
      = joinNl cs ++ "\n" := by
    cases tb with
    | true => simp [strAppend_empty]
    | false => simp [strAppend_empty]
  rw [hmid]
  rw [joinNl_concat cs (fragCore f) hcne]
  conv_lhs => rw [← fragCore_append_tailOpt f]
  rw [← strAppend_assoc]

theorem foldThink_join (rest : List String) :
    ∀ (cs : List String) (lc : String) (tb : Bool),
    (∀ f ∈ rest, fragOk f) → cs.getLast? = some lc → lc.data ≠ [] →
    '\n' ∉ lc.data →
    List.foldl appendThink (joinNl cs ++ cond tb "\n" "") rest
      = joinNl (cs ++ rest.map fragCore) ++
          (match rest.getLast? with
           | some f => tailOpt f
           | none => cond tb "\n" "") := by
  induction rest with
  | nil =>
      intro cs lc tb _ _ _ _
      simp
  | cons f rest2 ih =>
      intro cs lc tb hok hcs hlc hnl
      have hf : fragOk f := hok f (by simp)
      show List.foldl appendThink (appendThink (joinNl cs ++ cond tb "\n" "") f)
        rest2 = _
      rw [appendThink_step cs lc f tb hcs hlc hnl]
      have hT : tailOpt f = cond (endsWithChar f '\n') "\n" "" := rfl
      rw [hT]
      rw [ih (cs ++ [fragCore f]) (fragCore f) (endsWithChar f '\n')
        (fun g hg => hok g (by simp [hg])) (by simp) hf.1 hf.2]
      have hl : cs ++ [fragCore f] ++ rest2.map fragCore
          = cs ++ (fragCore f :: rest2.map fragCore) := by simp
      rw [hl]
      cases rest2 with
      | nil => rfl
      | cons g tl =>
          obtain ⟨w, hw⟩ : ∃ w, (g :: tl).getLast? = some w :=
            ⟨_, List.getLast?_eq_getLast_of_ne_nil (by simp)⟩
          simp only [List.getLast?_cons_cons, hw, List.map_cons]

theorem updateAgentFromMessage_noop (e : StreamEvent) (st : AppState)
    (h1 : e.type ≠ "status") (h2 : e.type ≠ "result")
    (h3 : e.type ≠ "final") (h4 : e.type ≠ "error")
    (h5 : e.type ≠ "end") :
    updateAgentFromMessage e st = st := by
  unfold updateAgentFromMessage
  cases hfind : List.find? (fun a => a.name == jsOr e.agent "系统") st.agentTeam with
  | none => simp [hfind, h5]
  | some a => simp [hfind, h1, h2, h3, h4]

theorem processParsedData_thinking_merge (e : StreamEvent) (st : AppState)
    (u m : Msg) (ht : e.type = "thinking") (hn : e.node = "supervisor")
    (hm : st.messages = [u, m]) (hi : st.currentMainMessageIndex = 1) :
    processParsedData e st =
      { st with
        messages := [u, { m with
          message := appendThink m.message e.message
          objId := st.nextObjId }]
        nextObjId := st.nextObjId + 1 } := by
  have hua : ∀ s, updateAgentFromMessage e s = s := fun s =>
    updateAgentFromMessage_noop e s (by simp [ht]) (by simp [ht])
      (by simp [ht]) (by simp [ht]) (by simp [ht])
  simp [processParsedData, handleSupervisorMessage, hn, ht, hm, hi,
    jsIndex, jsSetIndex, hua, appendThink]

def runEvents (evs : List StreamEvent) (st : AppState) : AppState :=
  evs.foldl (fun s e => processParsedData e s) st

theorem processParsedData_thinking_push (e : StreamEvent) (st : AppState)
    (u : Msg) (ht : e.type = "thinking") (hn : e.node = "supervisor")
    (hm : st.messages = [u]) (hi : st.currentMainMessageIndex = -1) :
    processParsedData e st =
      { st with
        messages := [u, Msg.ofEvent st.nextObjId e]
        currentMainMessageIndex := 1
        nextObjId := st.nextObjId + 1 } := by
  have hua : ∀ s, updateAgentFromMessage e s = s := fun s =>
    updateAgentFromMessage_noop e s (by simp [ht]) (by simp [ht])
      (by simp [ht]) (by simp [ht]) (by simp [ht])
  simp [processParsedData, handleSupervisorMessage, hn, ht, hm, hi, hua]

theorem runEvents_thinking (evs : List StreamEvent)
    (hok : ∀ e ∈ evs, e.type = "thinking" ∧ e.node = "supervisor") :
    ∀ (st : AppState) (u m : Msg), st.messages = [u, m] →
    st.currentMainMessageIndex = 1 →
    ∃ j n2, runEvents evs st =
      { st with
        messages := [u, { m with
          message := List.foldl appendThink m.message
            (evs.map StreamEvent.message)
          objId := j }]
        nextObjId := n2 } := by
  induction evs with
  | nil =>
      intro st u m hm hi
      refine ⟨m.objId, st.nextObjId, ?_⟩
      have hmm : ({ m with
          message := List.foldl appendThink m.message
            (List.map StreamEvent.message [])
          objId := m.objId } : Msg) = m := rfl
      rw [show runEvents [] st = st from rfl, hmm, ← hm]
  | cons e evs2 ih =>
      intro st u m hm hi
      have he := hok e (by simp)
      have hstep : runEvents (e :: evs2) st
          = runEvents evs2 (processParsedData e st) := rfl
      rw [hstep, processParsedData_thinking_merge e st u m he.1 he.2 hm hi]
      obtain ⟨j, n2, hrec⟩ := ih (fun g hg => hok g (by simp [hg]))
        ({ st with
            messages := [u, { m with
              message := appendThink m.message e.message
              objId := st.nextObjId }]
            nextObjId := st.nextObjId + 1 })
        u
        ({ m with
            message := appendThink m.message e.message
            objId := st.nextObjId })
        rfl hi
      exact ⟨j, n2, by rw [hrec]; rfl⟩


theorem updateAgentFromMessage_messages (e : StreamEvent) (st : AppState) :
    (updateAgentFromMessage e st).messages = st.messages ∧
    (updateAgentFromMessage e st).currentMainMessageIndex
      = st.currentMainMessageIndex ∧
    (updateAgentFromMessage e st).nextObjId = st.nextObjId := by
  unfold updateAgentFromMessage
  cases hfind : List.find? (fun a => a.name == jsOr e.agent "系统") st.agentTeam with
  | none =>
      simp only [hfind]
      split_ifs <;> exact ⟨rfl, rfl, rfl⟩
  | some a =>
      simp only [hfind]
      split_ifs <;> exact ⟨rfl, rfl, rfl⟩

theorem handleSupervisorMessage_team (e : StreamEvent) (st : AppState) :
    (handleSupervisorMessage e st).agentTeam = st.agentTeam ∧
    (handleSupervisorMessage e st).currentActiveAgent
      = st.currentActiveAgent ∧
    (handleSupervisorMessage e st).loading = st.loading := by
  unfold handleSupervisorMessage
  split_ifs
  all_goals
    first
    | exact ⟨rfl, rfl, rfl⟩
    | (cases hj : jsIndex st.messages st.currentMainMessageIndex <;>
        simp [hj])

theorem jsIndex_nonneg (l : List Msg) (i : Int) (m : Msg)
    (h : jsIndex l i = some m) : 0 ≤ i := by
  unfold jsIndex at h
  by_contra hlt
  rw [if_pos (by omega)] at h
  exact Option.noConfusion h

theorem jsIndex_mem (l : List Msg) (i : Int) (m : Msg)
    (h : jsIndex l i = some m) : m ∈ l := by
  unfold jsIndex at h
  by_cases h0 : i < 0
  · rw [if_pos h0] at h
    exact absurd h (by simp)
  · rw [if_neg h0] at h
    exact List.getElem?_mem h

theorem jsIndex_jsSetIndex_self (l : List Msg) (i : Int) (m m' : Msg)
    (h : jsIndex l i = some m) :
    jsIndex (jsSetIndex l i m') i = some m' := by
  have h0 : ¬ i < 0 := by
    have := jsIndex_nonneg l i m h
    omega
  unfold jsIndex at h
  rw [if_neg h0] at h
  have hlt : i.toNat < l.length := by
    rcases List.getElem?_eq_some.mp h with ⟨hl, _⟩
    exact hl
  unfold jsIndex jsSetIndex
  rw [if_neg h0, if_neg h0]
  exact List.getElem?_set_self (by simpa using hlt)

theorem handleSupervisorMessage_merge (e : StreamEvent) (st : AppState)
    (i : Int) (m : Msg)
    (ht : e.type = "thinking" ∨ e.type = "status" ∨ e.type = "result" ∨
      e.type = "final" ∨ e.type = "error")
    (hi : st.currentMainMessageIndex = i) (hne : i ≠ -1)
    (hm : jsIndex st.messages i = some m) :
    ∃ t, handleSupervisorMessage e st =
      { st with
        messages := jsSetIndex st.messages i
          { m with message := t, objId := st.nextObjId }
        nextObjId := st.nextObjId + 1 } := by
  have hne' : (i == -1) = false := by simpa using hne
  rcases ht with ht | ht | ht | ht | ht
  · exact ⟨m.message ++ (if endsWithChar m.message '\n' then "" else "\n")
      ++ e.message, by simp [handleSupervisorMessage, ht, hi, hne, hne', hm]⟩
  · exact ⟨m.message ++ (if endsWithChar m.message '\n' then "" else "\n")
      ++ e.message, by simp [handleSupervisorMessage, ht, hi, hne, hne', hm]⟩
  · exact ⟨m.message ++ (if endsWithChar m.message '\n' then "" else "\n\n")
      ++ e.message, by simp [handleSupervisorMessage, ht, hi, hne, hne', hm]⟩
  · exact ⟨m.message ++ (if endsWithChar m.message '\n' then "" else "\n\n")
      ++ e.message, by simp [handleSupervisorMessage, ht, hi, hne, hne', hm]⟩
  · exact ⟨m.message ++ (if endsWithChar m.message '\n' then "" else "\n\n")
      ++ "❌ " ++ e.message, by simp [handleSupervisorMessage, ht, hi, hne, hne', hm]⟩

theorem processParsedData_messages (e : StreamEvent) (st : AppState) :
    (processParsedData e st).messages
      = (if e.node == "supervisor" then handleSupervisorMessage e st
         else st).messages := by
  unfold processParsedData
  split <;> split <;> exact (updateAgentFromMessage_messages e _).1

theorem processParsedData_merge (e : StreamEvent) (st : AppState) (i : Int)
    (m : Msg) (hn : e.node = "supervisor")
    (ht : e.type = "thinking" ∨ e.type = "status" ∨ e.type = "result" ∨
      e.type = "final" ∨ e.type = "error")
    (hi : st.currentMainMessageIndex = i) (hne : i ≠ -1)
    (hm : jsIndex st.messages i = some m) :
    ∃ t, (processParsedData e st).messages
      = jsSetIndex st.messages i { m with message := t, objId := st.nextObjId } := by
  obtain ⟨t, hsm⟩ := handleSupervisorMessage_merge e st i m ht hi hne hm
  refine ⟨t, ?_⟩
  rw [processParsedData_messages, if_pos (by simp [hn]), hsm]

theorem updateAgentFromMessage_congr (e1 e2 : StreamEvent) (s1 s2 : AppState)
    (he_t : e1.type = e2.type) (he_a : e1.agent = e2.agent)
    (h1 : s1.agentTeam = s2.agentTeam)
    (h2 : s1.currentActiveAgent = s2.currentActiveAgent) :
    (updateAgentFromMessage e1 s1).agentTeam
      = (updateAgentFromMessage e2 s2).agentTeam ∧
    (updateAgentFromMessage e1 s1).currentActiveAgent
      = (updateAgentFromMessage e2 s2).currentActiveAgent := by
  unfold updateAgentFromMessage
  rw [he_t, he_a, h1]
  cases hfind : List.find? (fun a => a.name == jsOr e2.agent "系统") s2.agentTeam with
  | none => split_ifs <;> simp [hfind, h1, h2]
  | some a => split_ifs <;> simp [hfind, h1, h2]

theorem updateAgentStatus_idle_all (t : List Agent) :
    ∀ a ∈ updateAgentStatus "idle" t, a.status = "idle" ∧ a.active = false := by
  intro a ha
  simp only [updateAgentStatus, List.mem_map] at ha
  obtain ⟨b, _, rfl⟩ := ha
  exact ⟨rfl, rfl⟩

theorem updateAgentFromMessage_some_skip (e : StreamEvent) (s : AppState)
    (a : Agent)
    (hf : s.agentTeam.find? (fun x => x.name == jsOr e.agent "系统") = some a)
    (h1 : e.type ≠ "status") (h2 : e.type ≠ "result") (h3 : e.type ≠ "final")
    (h4 : e.type ≠ "error") :
    updateAgentFromMessage e s = s := by
  unfold updateAgentFromMessage
  simp [hf, h1, h2, h3, h4]

theorem updateAgentFromMessage_end_unknown (e : StreamEvent) (s : AppState)
    (ht : e.type = "end")
    (hf : s.agentTeam.find? (fun x => x.name == jsOr e.agent "系统") = none) :
    (updateAgentFromMessage e s).currentActiveAgent = "" := by
  unfold updateAgentFromMessage
  simp [hf, ht]

theorem find?_updateFirstAgent (name : String) (f : Agent → Agent)
    (l : List Agent) (a : Agent) (hf : ∀ x, (f x).name = x.name)
    (h : l.find? (fun x => x.name == name) = some a) :
    (updateFirstAgent name f l).find? (fun x => x.name == name) = some (f a) := by
  induction l with
  | nil => simp at h
  | cons b tl ih =>
      unfold updateFirstAgent
      by_cases hb : (b.name == name) = true
      · rw [if_pos hb]
        simp [hb] at h
        subst h
        simp [hf, hb]
      · rw [if_neg hb]
        simp [hb] at h ⊢
        exact ih h

theorem processParsedData_end_final_shape (e : StreamEvent) (st : AppState)
    (ht : (e.type == "end" || e.type == "final") = true) :
    processParsedData e st =
      { updateAgentFromMessage e
          (if (e.node == "supervisor") = true then handleSupervisorMessage e st
           else st) with
        loading := false
        agentTeam := updateAgentStatus "idle"
          (updateAgentFromMessage e
            (if (e.node == "supervisor") = true then handleSupervisorMessage e st
             else st)).agentTeam
        currentMainMessageIndex := -1 } := by
  unfold processParsedData
  rw [if_pos ht]

theorem processParsedData_not_end_final_shape (e : StreamEvent) (st : AppState)
    (ht : (e.type == "end" || e.type == "final") = false) :
    processParsedData e st =
      updateAgentFromMessage e
        (if (e.node == "supervisor") = true then handleSupervisorMessage e st
         else st) := by
  unfold processParsedData
  rw [if_neg (by simp [ht])]

theorem dispatch_team (e : StreamEvent) (st : AppState) :
    (if (e.node == "supervisor") = true then handleSupervisorMessage e st
     else st).agentTeam = st.agentTeam ∧
    (if (e.node == "supervisor") = true then handleSupervisorMessage e st
     else st).currentActiveAgent = st.currentActiveAgent := by
  split_ifs
  · exact ⟨(handleSupervisorMessage_team e st).1,
      (handleSupervisorMessage_team e st).2.1⟩
  · exact ⟨rfl, rfl⟩

/-- C4 (amended): after an `end` event every agent's status is idle with
the active flag cleared, the main-slot index is reset to none and loading
stops, regardless of the event's agent name; but the active-agent
indicator is cleared only when the event's agent name (after defaulting to
the system label) matches no roster agent — an `end` event carrying a
known agent name leaves the active-agent indicator unchanged. -/
theorem c4_end_event_amended (st : AppState) (e : StreamEvent)
    (ht : e.type = "end") :
    (∀ a ∈ (processParsedData e st).agentTeam,
      a.status = "idle" ∧ a.active = false) ∧
    (processParsedData e st).currentMainMessageIndex = -1 ∧
    (processParsedData e st).loading = false ∧
    (st.agentTeam.find? (fun x => x.name == jsOr e.agent "系统") = none →
      (processParsedData e st).currentActiveAgent = "") ∧
    (∀ a, st.agentTeam.find? (fun x => x.name == jsOr e.agent "系统") = some a →
      (processParsedData e st).currentActiveAgent = st.currentActiveAgent) := by
  have hshape := processParsedData_end_final_shape e st (by simp [ht])
  have hd := dispatch_team e st
  rw [hshape]
  refine ⟨updateAgentStatus_idle_all _, rfl, rfl, ?_, ?_⟩
  · intro hfind
    show (updateAgentFromMessage e _).currentActiveAgent = ""
    apply updateAgentFromMessage_end_unknown e _ ht
    rw [hd.1]
    exact hfind
  · intro a hfind
    show (updateAgentFromMessage e _).currentActiveAgent = st.currentActiveAgent
    rw [updateAgentFromMessage_some_skip e _ a (by rw [hd.1]; exact hfind)
      (by simp [ht]) (by simp [ht]) (by simp [ht]) (by simp [ht])]
    exact hd.2

/-- C5 (amended): for a `result` event whose agent name matches a roster
agent, that agent ends the event completed and the active-agent indicator
is unchanged; for a `final` event the matched agent is first marked
completed but the run-end handling then resets every agent to idle, so
after the event is fully processed the agent is idle, while the
active-agent indicator is cleared. -/
theorem c5_result_final_amended (st : AppState) (e : StreamEvent) (a : Agent)
    (hf : st.agentTeam.find? (fun x => x.name == jsOr e.agent "系统") = some a) :
    (e.type = "result" →
      (processParsedData e st).agentTeam.find?
          (fun x => x.name == jsOr e.agent "系统")
        = some { a with status := "completed", active := false } ∧
      (processParsedData e st).currentActiveAgent = st.currentActiveAgent) ∧
    (e.type = "final" →
      (processParsedData e st).currentActiveAgent = "" ∧
      ∀ x ∈ (processParsedData e st).agentTeam, x.status = "idle") := by
  have hd := dispatch_team e st
  set s1 := (if (e.node == "supervisor") = true then handleSupervisorMessage e st
    else st) with hs1
  have hf2 : s1.agentTeam.find? (fun x => x.name == jsOr e.agent "系统")
      = some a := by
    rw [hd.1]
    exact hf
  constructor
  · intro ht
    have hshape := processParsedData_not_end_final_shape e st (by simp [ht])
    rw [hshape, ← hs1]
    constructor
    · have hteam : (updateAgentFromMessage e s1).agentTeam
          = updateFirstAgent (jsOr e.agent "系统")
            (fun x => { x with status := "completed", active := false })
            s1.agentTeam := by
        unfold updateAgentFromMessage
        simp [hf2, ht]
      rw [hteam, hd.1]
      exact find?_updateFirstAgent _ _ _ _ (fun x => rfl) hf
    · have haa : (updateAgentFromMessage e s1).currentActiveAgent
          = s1.currentActiveAgent := by
        unfold updateAgentFromMessage
        simp [hf2, ht]
      rw [haa]
      exact hd.2
  · intro ht
    have hshape := processParsedData_end_final_shape e st (by simp [ht])
    rw [hshape, ← hs1]
    refine ⟨?_, fun x hx => (updateAgentStatus_idle_all _ x hx).1⟩
    have haa : (updateAgentFromMessage e s1).currentActiveAgent = "" := by
      unfold updateAgentFromMessage
      simp [hf2, ht]
    exact haa

/-- C9: agent-activity mutation ignores the event's origin node: a
status / result / final / error / end event whose node is not
"supervisor" changes the roster and the active-agent indicator exactly as
the same event from the supervisor node would, while never touching the
transcript. -/
theorem c9_agent_updates_node_independent (st : AppState) (e : StreamEvent)
    (hn : e.node ≠ "supervisor")
    (_ht : e.type = "status" ∨ e.type = "result" ∨ e.type = "final" ∨
      e.type = "error" ∨ e.type = "end") :
    (processParsedData e st).agentTeam
      = (processParsedData { e with node := "supervisor" } st).agentTeam ∧
    (processParsedData e st).currentActiveAgent
      = (processParsedData { e with node := "supervisor" } st).currentActiveAgent ∧
    (processParsedData e st).messages = st.messages := by
  have hb : (e.node == "supervisor") = false := by simpa using hn
  have hmsgs : (processParsedData e st).messages = st.messages := by
    rw [processParsedData_messages, if_neg (by simp [hb])]
  set e2 : StreamEvent := { e with node := "supervisor" } with he2
  set s1 := (if (e.node == "supervisor") = true then handleSupervisorMessage e st
    else st) with hs1
  set s2 := (if (e2.node == "supervisor") = true then
    handleSupervisorMessage e2 st else st) with hs2
  have hteam12 : s1.agentTeam = s2.agentTeam := by
    rw [hs1, hs2, (dispatch_team e st).1, (dispatch_team e2 st).1]
  have haa12 : s1.currentActiveAgent = s2.currentActiveAgent := by
    rw [hs1, hs2, (dispatch_team e st).2, (dispatch_team e2 st).2]
  have hcong := updateAgentFromMessage_congr e e2 s1 s2 rfl rfl hteam12 haa12
  refine ⟨?_, ?_, hmsgs⟩
  all_goals
    by_cases hc : (e.type == "end" || e.type == "final") = true
  case pos =>
    rw [processParsedData_end_final_shape e st hc,
      processParsedData_end_final_shape e2 st hc, ← hs1, ← hs2]
    rw [hcong.1]
  case neg =>
    have hc2 : (e.type == "end" || e.type == "final") = false := by
      simpa using hc
    rw [processParsedData_not_end_final_shape e st hc2,
      processParsedData_not_end_final_shape e2 st hc2, ← hs1, ← hs2]
    exact hcong.1
  case pos =>
    rw [processParsedData_end_final_shape e st hc,
      processParsedData_end_final_shape e2 st hc, ← hs1, ← hs2]
    rw [hcong.2]
  case neg =>
    have hc2 : (e.type == "end" || e.type == "final") = false := by
      simpa using hc
    rw [processParsedData_not_end_final_shape e st hc2,
      processParsedData_not_end_final_shape e2 st hc2, ← hs1, ← hs2]
    exact hcong.2

/-- A wire event with only the required fields and an agent name, used for
concrete instances. -/
def mkEvent (ty nd : String) (ag : Option String) (msgText : String) :
    StreamEvent :=
  { type := ty
    node := nd
    agent := ag
    message := msgText
    delta := none
    timestamp := none
    subtasks := none
    current_task := none }

/-- C6: a decoded line whose payload — the text after the `data: ` prefix,
trimmed — does not end in a closing brace is dropped before `JSON.parse`:
the whole state, transcript and agent activity alike, is unchanged. -/
theorem c6_incomplete_payload_dropped (st : AppState) (line : String)
    (h : endsWithChar (jsTrim (String.mk (line.data.drop 6))) '\x7d' = false) :
    processLine line st = st := by
  unfold processLine
  split_ifs with h1 <;> first | rfl | simp_all

theorem c6_incomplete_payload_dropped_witness :
    endsWithChar (jsTrim (String.mk
      (("data: \x7b\"type\":\"thinking\"" : String).data.drop 6))) '\x7d' = false
    ∧ processLine "data: \x7b\"type\":\"thinking\"" initialState = initialState :=
  ⟨by decide, c6_incomplete_payload_dropped initialState
    "data: \x7b\"type\":\"thinking\"" (by decide)⟩

/-- C8: a supervisor event of kind decomposition, assignment, execution or
aggregation leaves the transcript completely unchanged: no entry is
appended or modified and the main-slot index keeps its value. -/
theorem c8_structured_kinds_no_transcript_effect (st : AppState)
    (e : StreamEvent) (hn : e.node = "supervisor")
    (ht : e.type = "decomposition" ∨ e.type = "assignment" ∨
      e.type = "execution" ∨ e.type = "aggregation") :
    (processParsedData e st).messages = st.messages ∧
    (processParsedData e st).currentMainMessageIndex
      = st.currentMainMessageIndex := by
  have hua : ∀ s, updateAgentFromMessage e s = s := fun s =>
    updateAgentFromMessage_noop e s (by rcases ht with h|h|h|h <;> simp [h])
      (by rcases ht with h|h|h|h <;> simp [h])
      (by rcases ht with h|h|h|h <;> simp [h])
      (by rcases ht with h|h|h|h <;> simp [h])
      (by rcases ht with h|h|h|h <;> simp [h])
  have hsm : handleSupervisorMessage e st = st := by
    rcases ht with h|h|h|h <;> simp [handleSupervisorMessage, h]
  have hcond : (e.type == "end" || e.type == "final") = false := by
    rcases ht with h|h|h|h <;> simp [h]
  rw [processParsedData_not_end_final_shape e st hcond]
  rw [if_pos (by simp [hn]), hsm, hua]
  exact ⟨rfl, rfl⟩

theorem c8_structured_kinds_no_transcript_effect_witness :
    (processParsedData (mkEvent "decomposition" "supervisor" (some "主管") "计划")
        (handleSubmit "t" "T" initialState)).messages
      = (handleSubmit "t" "T" initialState).messages ∧
    (processParsedData (mkEvent "decomposition" "supervisor" (some "主管") "计划")
        (handleSubmit "t" "T" initialState)).currentMainMessageIndex
      = (handleSubmit "t" "T" initialState).currentMainMessageIndex :=
  c8_structured_kinds_no_transcript_effect _ _ rfl (Or.inl rfl)

/-- C7: every merge into the open main slot (thinking, status, result,
final or error) replaces the stored entry by a newly constructed object:
under the reachable-state invariant that every stored object serial is
below the allocation counter, the entry stored at the main-slot index
after the merge has a serial different from the one stored before, i.e.
it is a different object. -/
theorem c7_merge_allocates_new_object (st : AppState) (e : StreamEvent)
    (i : Int) (m : Msg)
    (hinv : ∀ x ∈ st.messages, x.objId < st.nextObjId)
    (hn : e.node = "supervisor")
    (ht : e.type = "thinking" ∨ e.type = "status" ∨ e.type = "result" ∨
      e.type = "final" ∨ e.type = "error")
    (hi : st.currentMainMessageIndex = i) (hne : i ≠ -1)
    (hm : jsIndex st.messages i = some m) :
    ∃ m', jsIndex (processParsedData e st).messages i = some m' ∧
      m'.objId ≠ m.objId := by
  obtain ⟨t, hset⟩ := processParsedData_merge e st i m hn ht hi hne hm
  refine ⟨{ m with message := t, objId := st.nextObjId }, ?_, ?_⟩
  · rw [hset]
    exact jsIndex_jsSetIndex_self _ _ _ _ hm
  · have hlt := hinv m (jsIndex_mem _ _ _ hm)
    show st.nextObjId ≠ m.objId
    omega

/-- C10: a merge into the open main slot changes only the entry's message
text (and its object identity): the stored entry's kind, agent name,
timestamp, structured payloads, node and delta flag are exactly those of
the entry that opened the slot. -/
theorem c10_merge_only_message_text (st : AppState) (e : StreamEvent)
    (i : Int) (m : Msg) (hn : e.node = "supervisor")
    (ht : e.type = "thinking" ∨ e.type = "status" ∨ e.type = "result" ∨
      e.type = "final" ∨ e.type = "error")
    (hi : st.currentMainMessageIndex = i) (hne : i ≠ -1)
    (hm : jsIndex st.messages i = some m) :
    ∃ m', jsIndex (processParsedData e st).messages i = some m' ∧
      m'.type = m.type ∧ m'.agent = m.agent ∧ m'.timestamp = m.timestamp ∧
      m'.subtasks = m.subtasks ∧ m'.current_task = m.current_task ∧
      m'.node = m.node ∧ m'.delta = m.delta := by
  obtain ⟨t, hset⟩ := processParsedData_merge e st i m hn ht hi hne hm
  refine ⟨{ m with message := t, objId := st.nextObjId }, ?_, rfl, rfl, rfl,
    rfl, rfl, rfl, rfl⟩
  rw [hset]
  exact jsIndex_jsSetIndex_self _ _ _ _ hm

/-- A concrete state with an open main slot: one submission followed by
one supervisor thinking event. -/
def slotOpenState : AppState :=
  processParsedData (mkEvent "thinking" "supervisor" (some "A") "x")
    (handleSubmit "t" "T" initialState)

theorem c7_merge_allocates_new_object_witness :
    ∃ m', jsIndex (processParsedData
        (mkEvent "result" "supervisor" (some "主管") "done")
        slotOpenState).messages 1 = some m' ∧
      m'.objId ≠ (Msg.ofEvent 1
        (mkEvent "thinking" "supervisor" (some "A") "x")).objId :=
  c7_merge_allocates_new_object slotOpenState
    (mkEvent "result" "supervisor" (some "主管") "done") 1
    (Msg.ofEvent 1 (mkEvent "thinking" "supervisor" (some "A") "x"))
    (by decide) rfl (Or.inr (Or.inr (Or.inl rfl))) (by decide) (by decide)
    (by decide)

theorem c10_merge_only_message_text_witness :
    ∃ m', jsIndex (processParsedData
        (mkEvent "result" "supervisor" (some "A") "done")
        slotOpenState).messages 1 = some m' ∧
      m'.type = (Msg.ofEvent 1
        (mkEvent "thinking" "supervisor" (some "A") "x")).type ∧
      m'.agent = (Msg.ofEvent 1
        (mkEvent "thinking" "supervisor" (some "A") "x")).agent ∧
      m'.timestamp = (Msg.ofEvent 1
        (mkEvent "thinking" "supervisor" (some "A") "x")).timestamp ∧
      m'.subtasks = (Msg.ofEvent 1
        (mkEvent "thinking" "supervisor" (some "A") "x")).subtasks ∧
      m'.current_task = (Msg.ofEvent 1
        (mkEvent "thinking" "supervisor" (some "A") "x")).current_task ∧
      m'.node = (Msg.ofEvent 1
        (mkEvent "thinking" "supervisor" (some "A") "x")).node ∧
      m'.delta = (Msg.ofEvent 1
        (mkEvent "thinking" "supervisor" (some "A") "x")).delta :=
  c10_merge_only_message_text slotOpenState
    (mkEvent "result" "supervisor" (some "A") "done") 1
    (Msg.ofEvent 1 (mkEvent "thinking" "supervisor" (some "A") "x"))
    rfl (Or.inr (Or.inr (Or.inl rfl))) (by decide) (by decide) (by decide)

/-- C2: for a supervisor `result` or `final` event, when the main slot is
open and holds an entry, the event's text is appended to the entry's text
with a double-newline separator exactly when the accumulated text does not
already end in a newline (and no separator otherwise); when no main slot
is open, the event is pushed as a new entry carrying its own text and the
merge step points the main-slot index at it. -/
theorem c2_result_final_append (st : AppState) (e : StreamEvent) (i : Int)
    (m : Msg) (hn : e.node = "supervisor")
    (ht : e.type = "result" ∨ e.type = "final") :
    (st.currentMainMessageIndex = i → i ≠ -1 → jsIndex st.messages i = some m →
      (processParsedData e st).messages = jsSetIndex st.messages i
        { m with
          message := m.message ++
            (if endsWithChar m.message '\n' then "" else "\n\n") ++ e.message
          objId := st.nextObjId }) ∧
    (st.currentMainMessageIndex = -1 →
      (processParsedData e st).messages
        = st.messages ++ [Msg.ofEvent st.nextObjId e] ∧
      (handleSupervisorMessage e st).currentMainMessageIndex
        = (st.messages.length : Int)) := by
  constructor
  · intro hi hne hm
    have hne' : (i == -1) = false := by simpa using hne
    rw [processParsedData_messages, if_pos (by simp [hn])]
    rcases ht with ht | ht <;>
      simp [handleSupervisorMessage, ht, hi, hne, hne', hm]
  · intro hi
    constructor
    · rw [processParsedData_messages, if_pos (by simp [hn])]
      rcases ht with ht | ht <;> simp [handleSupervisorMessage, ht, hi]
    · rcases ht with ht | ht <;> simp [handleSupervisorMessage, ht, hi]

theorem c2_result_final_append_witness :
    (slotOpenState.currentMainMessageIndex = 1 → (1 : Int) ≠ -1 →
      jsIndex slotOpenState.messages 1 = some (Msg.ofEvent 1
        (mkEvent "thinking" "supervisor" (some "A") "x")) →
      (processParsedData (mkEvent "result" "supervisor" (some "A") "done")
          slotOpenState).messages
        = jsSetIndex slotOpenState.messages 1
          { Msg.ofEvent 1 (mkEvent "thinking" "supervisor" (some "A") "x") with
            message := (Msg.ofEvent 1 (mkEvent "thinking" "supervisor"
              (some "A") "x")).message ++
              (if endsWithChar (Msg.ofEvent 1 (mkEvent "thinking" "supervisor"
                (some "A") "x")).message '\n' then "" else "\n\n") ++
              (mkEvent "result" "supervisor" (some "A") "done").message
            objId := slotOpenState.nextObjId }) ∧
    (slotOpenState.currentMainMessageIndex = -1 →
      (processParsedData (mkEvent "result" "supervisor" (some "A") "done")
          slotOpenState).messages
        = slotOpenState.messages ++ [Msg.ofEvent slotOpenState.nextObjId
            (mkEvent "result" "supervisor" (some "A") "done")] ∧
      (handleSupervisorMessage (mkEvent "result" "supervisor" (some "A") "done")
          slotOpenState).currentMainMessageIndex
        = (slotOpenState.messages.length : Int)) :=
  c2_result_final_append slotOpenState
    (mkEvent "result" "supervisor" (some "A") "done") 1
    (Msg.ofEvent 1 (mkEvent "thinking" "supervisor" (some "A") "x"))
    rfl (Or.inl rfl)

theorem c4_end_event_amended_witness :
    (∀ a ∈ (processParsedData (mkEvent "end" "supervisor" (some "X") "over")
        slotOpenState).agentTeam, a.status = "idle" ∧ a.active = false) ∧
    (processParsedData (mkEvent "end" "supervisor" (some "X") "over")
      slotOpenState).currentMainMessageIndex = -1 ∧
    (processParsedData (mkEvent "end" "supervisor" (some "X") "over")
      slotOpenState).loading = false ∧
    (slotOpenState.agentTeam.find? (fun x => x.name ==
        jsOr (mkEvent "end" "supervisor" (some "X") "over").agent "系统") = none →
      (processParsedData (mkEvent "end" "supervisor" (some "X") "over")
        slotOpenState).currentActiveAgent = "") ∧
    (∀ a, slotOpenState.agentTeam.find? (fun x => x.name ==
        jsOr (mkEvent "end" "supervisor" (some "X") "over").agent "系统") = some a →
      (processParsedData (mkEvent "end" "supervisor" (some "X") "over")
        slotOpenState).currentActiveAgent = slotOpenState.currentActiveAgent) :=
  c4_end_event_amended slotOpenState
    (mkEvent "end" "supervisor" (some "X") "over") rfl

/-- C4 fails as stated: an `end` event whose agent name matches a known
roster agent (here the supervisor) does not clear the active-agent
indicator — after a status event activates the research team and such an
`end` event arrives, the indicator still names the research team. -/
theorem c4_end_known_agent_counterexample :
    (processParsedData (mkEvent "end" "supervisor" (some "主管") "over")
      (processParsedData (mkEvent "status" "supervisor" (some "研究团队") "工作中")
        (handleSubmit "t" "T" initialState))).currentActiveAgent = "研究团队" ∧
    (processParsedData (mkEvent "end" "supervisor" (some "主管") "over")
      (processParsedData (mkEvent "status" "supervisor" (some "研究团队") "工作中")
        (handleSubmit "t" "T" initialState))).currentActiveAgent ≠ "" := by
  decide

theorem c5_result_final_amended_witness :
    ((mkEvent "result" "supervisor" (some "主管") "done").type = "result" →
      (processParsedData (mkEvent "result" "supervisor" (some "主管") "done")
          (handleSubmit "t" "T" initialState)).agentTeam.find?
          (fun x => x.name ==
            jsOr (mkEvent "result" "supervisor" (some "主管") "done").agent "系统")
        = some ⟨"主管", "👨‍💼", "completed", false, "supervisor", 1⟩ ∧
      (processParsedData (mkEvent "result" "supervisor" (some "主管") "done")
          (handleSubmit "t" "T" initialState)).currentActiveAgent
        = (handleSubmit "t" "T" initialState).currentActiveAgent) ∧
    ((mkEvent "result" "supervisor" (some "主管") "done").type = "final" →
      (processParsedData (mkEvent "result" "supervisor" (some "主管") "done")
          (handleSubmit "t" "T" initialState)).currentActiveAgent = "" ∧
      ∀ x ∈ (processParsedData (mkEvent "result" "supervisor" (some "主管") "done")
          (handleSubmit "t" "T" initialState)).agentTeam, x.status = "idle") :=
  c5_result_final_amended (handleSubmit "t" "T" initialState)
    (mkEvent "result" "supervisor" (some "主管") "done")
    ⟨"主管", "👨‍💼", "active", true, "supervisor", 1⟩
    (by decide)

/-- C5 fails as stated for `final`: a final event from the known supervisor
agent leaves that agent idle, not completed, because the run-end handling
resets every agent to idle after the activity update. -/
theorem c5_final_completed_counterexample :
    ((processParsedData (mkEvent "final" "supervisor" (some "主管") "答案")
        (handleSubmit "t" "T" initialState)).agentTeam.find?
        (fun a => a.name == "主管")).map Agent.status = some "idle" ∧
    ((processParsedData (mkEvent "final" "supervisor" (some "主管") "答案")
        (handleSubmit "t" "T" initialState)).agentTeam.find?
        (fun a => a.name == "主管")).map Agent.status ≠ some "completed" := by
  decide

/-- A concrete non-supervisor status event for the C9 instance. -/
def c9ev : StreamEvent := mkEvent "status" "research_team" (some "研究团队") "开始"

theorem c9_agent_updates_node_independent_witness :
    (processParsedData c9ev slotOpenState).agentTeam
      = (processParsedData { c9ev with node := "supervisor" }
          slotOpenState).agentTeam ∧
    (processParsedData c9ev slotOpenState).currentActiveAgent
      = (processParsedData { c9ev with node := "supervisor" }
          slotOpenState).currentActiveAgent ∧
    (processParsedData c9ev slotOpenState).messages = slotOpenState.messages :=
  c9_agent_updates_node_independent slotOpenState c9ev (by decide) (Or.inl rfl)

/-- The two-line input sequence of spec section 8, as raw stream lines. -/
def specLine1 : String :=
  "data: \x7b\"type\":\"thinking\",\"node\":\"supervisor\",\"agent\":\"A\",\"message\":\"x\"\x7d"

def specLine2 : String :=
  "data: \x7b\"type\":\"thinking\",\"node\":\"supervisor\",\"agent\":\"A\",\"message\":\"y\"\x7d"

/-- An event-loop trace in which a second task is submitted while the
first run's reader is still open, and the stale reader then delivers one
more supervisor thinking line. -/
def staleRunTrace : List UiAction :=
  [UiAction.submit "第一个任务" "T1",
   UiAction.streamLine "data: \x7b\"type\":\"thinking\",\"node\":\"supervisor\",\"agent\":\"A\",\"message\":\"stale\"\x7d",
   UiAction.submit "第二个任务" "T2",
   UiAction.streamLine "data: \x7b\"type\":\"thinking\",\"node\":\"supervisor\",\"agent\":\"A\",\"message\":\"LEAK\"\x7d"]

/-- C3 fails on the code: there is no run id and `handleSubmit` never
aborts the previous reader, so a line delivered by the superseded run's
reader after a new submission is processed by the same handler and its
text enters the new run's transcript.  In `staleRunTrace` the text
`LEAK` arrives on the old run's stream after the second submission, yet
the new transcript renders exactly that old-run text. -/
theorem c3_stale_run_leak :
    (runUi staleRunTrace).messages.map Msg.message = ["第二个任务", "LEAK"] ∧
    (filteredMessages (runUi staleRunTrace).messages).map Msg.message
      = ["LEAK"] := by
  decide

instance (f : String) : Decidable (fragOk f) :=
  inferInstanceAs (Decidable ((fragCore f).data ≠ [] ∧ '\n' ∉ (fragCore f).data))

theorem thinkingRun_join (task ts : String) (e0 : StreamEvent)
    (rest : List StreamEvent)
    (ht0 : e0.type = "thinking") (hn0 : e0.node = "supervisor")
    (hok0 : fragOk e0.message)
    (hrest : ∀ e ∈ rest, e.type = "thinking" ∧ e.node = "supervisor" ∧
      fragOk e.message) :
    (filteredMessages (runEvents (e0 :: rest)
        (handleSubmit task ts initialState)).messages).map Msg.message
      = [joinNl (fragCore e0.message :: rest.map (fun e => fragCore e.message))
          ++ tailOpt (rest.getLastD e0).message]
    ∧ (runEvents (e0 :: rest)
        (handleSubmit task ts initialState)).currentMainMessageIndex = 1 := by
  have h1 : runEvents (e0 :: rest) (handleSubmit task ts initialState)
      = runEvents rest
        (processParsedData e0 (handleSubmit task ts initialState)) := rfl
  have hpush := processParsedData_thinking_push e0
    (handleSubmit task ts initialState) _ ht0 hn0 rfl rfl
  obtain ⟨j, n2, hrec⟩ := runEvents_thinking rest
    (fun e he => ⟨(hrest e he).1, (hrest e he).2.1⟩)
    ({ handleSubmit task ts initialState with
        messages := [_, Msg.ofEvent
          (handleSubmit task ts initialState).nextObjId e0]
        currentMainMessageIndex := 1
        nextObjId := (handleSubmit task ts initialState).nextObjId + 1 })
    _ _ rfl rfl
  rw [h1, hpush, hrec]
  have hfold : List.foldl appendThink e0.message (rest.map StreamEvent.message)
      = joinNl ([fragCore e0.message] ++
          (rest.map StreamEvent.message).map fragCore)
        ++ (match (rest.map StreamEvent.message).getLast? with
            | some f => tailOpt f
            | none => cond (endsWithChar e0.message '\n') "\n" "") := by
    have hj := foldThink_join (rest.map StreamEvent.message)
      [fragCore e0.message]
      (fragCore e0.message) (endsWithChar e0.message '\n')
      (by
        intro f hf
        obtain ⟨g, hg, hgf⟩ := List.mem_map.mp hf
        exact hgf ▸ (hrest g hg).2.2)
      rfl hok0.1 hok0.2
    rw [← hj]
    have hbase : joinNl [fragCore e0.message] ++
        cond (endsWithChar e0.message '\n') "\n" "" = e0.message :=
      fragCore_append_tailOpt e0.message
    rw [hbase]
  have hmatch : (match (rest.map StreamEvent.message).getLast? with
      | some f => tailOpt f
      | none => cond (endsWithChar e0.message '\n') "\n" "")
      = tailOpt (rest.getLastD e0).message := by
    cases rest with
    | nil => rfl
    | cons r0 rtl =>
        obtain ⟨w, hw⟩ : ∃ w, (r0 :: rtl).getLast? = some w :=
          ⟨_, List.getLast?_eq_getLast_of_ne_nil (by simp)⟩
        rw [List.getLast?_map, hw]
        rw [List.getLastD_eq_getLast?, hw]
        rfl
  have hlist : [fragCore e0.message] ++
      (rest.map StreamEvent.message).map fragCore
      = fragCore e0.message :: rest.map (fun e => fragCore e.message) := by
    simp [List.map_map]
  rw [hmatch, hlist] at hfold
  constructor
  · simp [filteredMessages, Msg.ofEvent, ht0, hfold]
  · rfl

/-- C1: within one run, processing a sequence of supervisor thinking
events whose fragments are nonempty and newline-free apart from an
optional trailing newline yields exactly one rendered transcript entry —
the open main slot — whose text is the fragment cores joined by single
newlines (plus the last fragment's own trailing newline, when present),
with no doubled blank lines; in particular the two-line data sequence
with messages `x` then `y` from the spec yields the single entry text
`x`-newline-`y`. -/
theorem c1_thinking_join :
    (∀ (task ts : String) (e0 : StreamEvent) (rest : List StreamEvent),
      e0.type = "thinking" → e0.node = "supervisor" → fragOk e0.message →
      (∀ e ∈ rest, e.type = "thinking" ∧ e.node = "supervisor" ∧
        fragOk e.message) →
      (filteredMessages (runEvents (e0 :: rest)
          (handleSubmit task ts initialState)).messages).map Msg.message
        = [joinNl (fragCore e0.message ::
              rest.map (fun e => fragCore e.message))
            ++ tailOpt (rest.getLastD e0).message]
      ∧ (runEvents (e0 :: rest)
          (handleSubmit task ts initialState)).currentMainMessageIndex = 1) ∧
    (filteredMessages (processLine specLine2 (processLine specLine1
        (handleSubmit "t" "T" initialState))).messages).map Msg.message
      = ["x\ny"] :=
  ⟨fun task ts e0 rest ht0 hn0 hok0 hrest =>
    thinkingRun_join task ts e0 rest ht0 hn0 hok0 hrest, by decide⟩

theorem c1_thinking_join_witness :
    ((filteredMessages (runEvents
        (mkEvent "thinking" "supervisor" (some "A") "x" ::
          [mkEvent "thinking" "supervisor" (some "A") "y"])
        (handleSubmit "t" "T" initialState)).messages).map Msg.message
      = [joinNl (fragCore (mkEvent "thinking" "supervisor" (some "A") "x").message ::
            [mkEvent "thinking" "supervisor" (some "A") "y"].map
              (fun e => fragCore e.message))
          ++ tailOpt (([mkEvent "thinking" "supervisor" (some "A") "y"].getLastD
              (mkEvent "thinking" "supervisor" (some "A") "x")).message)]
      ∧ (runEvents
          (mkEvent "thinking" "supervisor" (some "A") "x" ::
            [mkEvent "thinking" "supervisor" (some "A") "y"])
          (handleSubmit "t" "T" initialState)).currentMainMessageIndex = 1) ∧
    joinNl (fragCore (mkEvent "thinking" "supervisor" (some "A") "x").message ::
        [mkEvent "thinking" "supervisor" (some "A") "y"].map
          (fun e => fragCore e.message))
      ++ tailOpt (([mkEvent "thinking" "supervisor" (some "A") "y"].getLastD
          (mkEvent "thinking" "supervisor" (some "A") "x")).message) = "x\ny" :=
  ⟨c1_thinking_join.1 "t" "T"
    (mkEvent "thinking" "supervisor" (some "A") "x")
    [mkEvent "thinking" "supervisor" (some "A") "y"]
    rfl rfl (by decide) (by decide), by decide⟩

/-- The object-serial invariant: every stored message object was allocated
before the current value of the allocation counter. -/
def msgsIdOk (st : AppState) : Prop :=
  ∀ x ∈ st.messages, x.objId < st.nextObjId

theorem msgsIdOk_initial : msgsIdOk initialState := by
  intro x hx
  simp [initialState] at hx

theorem msgsIdOk_handleSubmit (task ts : String) (st : AppState) :
    msgsIdOk (handleSubmit task ts st) := by
  intro x hx
  simp only [handleSubmit, List.mem_singleton] at hx
  subst hx
  exact Nat.lt_succ_self _

theorem msgsIdOk_handleSupervisorMessage (e : StreamEvent) (st : AppState)
    (h : msgsIdOk st) :
    ∀ x ∈ (handleSupervisorMessage e st).messages,
      x.objId < (handleSupervisorMessage e st).nextObjId := by
  unfold handleSupervisorMessage
  split_ifs
  all_goals
    first
    | exact fun x hx => h x hx
    | (intro x hx
       rcases List.mem_append.mp hx with hx | hx
       · exact Nat.lt_succ_of_lt (h x hx)
       · rw [List.mem_singleton.mp hx]
         exact Nat.lt_succ_self _)
    | (cases hj : jsIndex st.messages st.currentMainMessageIndex with
       | none =>
           simp only [hj]
           exact fun x hx => h x hx
       | some m =>
           simp only [hj]
           intro x hx
           unfold jsSetIndex at hx
           by_cases h0 : st.currentMainMessageIndex < 0
           · rw [if_pos h0] at hx
             exact Nat.lt_succ_of_lt (h x hx)
           · rw [if_neg h0] at hx
             rcases List.mem_or_eq_of_mem_set hx with hx | hx
             · exact Nat.lt_succ_of_lt (h x hx)
             · rw [hx]
               exact Nat.lt_succ_self _)

theorem processParsedData_nextObjId (e : StreamEvent) (st : AppState) :
    (processParsedData e st).nextObjId
      = (if e.node == "supervisor" then handleSupervisorMessage e st
         else st).nextObjId := by
  unfold processParsedData
  split <;> split <;> exact (updateAgentFromMessage_messages e _).2.2

theorem msgsIdOk_processParsedData (e : StreamEvent) (st : AppState)
    (h : msgsIdOk st) : msgsIdOk (processParsedData e st) := by
  intro x hx
  rw [processParsedData_messages] at hx
  rw [processParsedData_nextObjId]
  revert hx
  split
  · exact msgsIdOk_handleSupervisorMessage e st h x
  · exact h x

theorem msgsIdOk_processLine (line : String) (st : AppState)
    (h : msgsIdOk st) : msgsIdOk (processLine line st) := by
  unfold processLine
  split_ifs with h1
  · show msgsIdOk (if (!endsWithChar (jsTrim (String.mk (line.data.drop 6)))
        '\x7d') = true then st
      else match parseStreamEvent (jsTrim (String.mk (line.data.drop 6))) with
        | some parsedData => processParsedData parsedData st
        | none => st)
    split_ifs with h2
    · exact h
    · cases hp : parseStreamEvent (jsTrim (String.mk (line.data.drop 6))) with
      | some parsedData => exact msgsIdOk_processParsedData parsedData st h
      | none => exact h
  · exact h

theorem msgsIdOk_runUi (acts : List UiAction) : msgsIdOk (runUi acts) := by
  suffices hstep : ∀ (acts2 : List UiAction) (st : AppState), msgsIdOk st →
      msgsIdOk (acts2.foldl stepUi st) by
    exact hstep acts initialState msgsIdOk_initial
  intro acts2
  induction acts2 with
  | nil => exact fun st h => h
  | cons a tl ih =>
      intro st h
      refine ih _ ?_
      cases a with
      | submit task ts => exact msgsIdOk_handleSubmit task ts st
      | streamLine l => exact msgsIdOk_processLine l st h
